import Mathlib

/-!
Verification of the Pijul input scheme (`src/libfetchers/pijul.cc`) of this
repository: the scheme adapter (`inputFromURL`, `inputFromAttrs`, `toURL`,
`getSourcePath`), the resolver (`doFetch` and its clone/validate overload),
the attribute-merge helper (`mergeAttrs` / `mergeOne`) and the channel-listing
parser (`getRepoChannel`).

Modelling conventions (shallow embedding):

* C++ `std::map` values (attribute sets, URL query strings) are modelled as
  association lists with unique keys; map equality is lookup equality.
* URL parsing is an external collaborator (spec §1: out of scope, assumed
  lossless), so a string that holds a URL is represented by its parse: the
  attribute-value variant `AttrV.urlv` stands for the string
  `ParsedURL.to_string` would produce, and `parseURL` of such a string is the
  identity.  A plain `AttrV.str` in the `url` attribute stands for a string
  the external parser rejects.
* The external subprocess (clone + probe) and the content-addressed store are
  collaborators; one resolution observes them only through the outcome of the
  clone/probe step, which is modelled by `ProbeOutcome`.
* The two-tier cache collaborator (`lookup` / `add(..., isFinal)`) is modelled
  from the spec (§3, §6) as a list of entries, newest first, with lookup over
  key equivalence.
* Thrown C++ exceptions are `Except.error` values of the `FErr` taxonomy.
-/

deriving instance DecidableEq for Except

namespace PijulFetch

/-- Error taxonomy (spec §7) for the exceptions thrown in `pijul.cc` and its
collaborators. -/
inductive FErr where
  | execError
  | channelMismatch (requested actual : String)
  | stateMismatch (requested actual : String)
  | attributeConflict (key : String)
  | unsupportedAttr (key : String)
  | missingAttr (key : String)
  | urlParseError
deriving DecidableEq

/-- Association-list lookup with string keys: the first binding wins, mirroring
`std::map::find` on maps whose keys are unique. -/
def lookupKV {β : Type} : List (String × β) → String → Option β
  | [], _ => none
  | p :: rest, key => if p.1 = key then some p.2 else lookupKV rest key

/-- Parsed URL, mirroring the fields of `ParsedURL` that `pijul.cc` uses:
`scheme`, the authority/path part, and the query map. -/
structure ParsedURL where
  scheme : String
  authority : Option String
  path : String
  query : List (String × String)
deriving DecidableEq

/-- The `base` of a parsed URL: the textual URL without its query, as in
`ParsedURL::base` — this is what `doFetch` uses as `repoUrl` (line 171). -/
def ParsedURL.base (u : ParsedURL) : String :=
  u.scheme ++ ":" ++ (match u.authority with | some a => "//" ++ a | none => "") ++ u.path

/-- Attribute value, mirroring `fetchers::Attr`
(`std::variant<std::string, uint64_t, Explicit<bool>>`); `urlv` is a string
value that the external URL parser accepts (see the module comment). -/
inductive AttrV where
  | str (s : String)
  | int (n : Nat)
  | boolean (b : Bool)
  | urlv (u : ParsedURL)
deriving DecidableEq

/-- Attribute set (`fetchers::Attrs`, a `std::map<std::string, Attr>`),
modelled as an association list with unique keys. -/
abbrev Attrs : Type := List (String × AttrV)

/-- Modelled from the spec (§3, string-valued attributes): accessor for an
optional string attribute, `fetchers::maybeGetStrAttr` (the attrs helpers are
outside the excerpt).  Absent or non-string attributes yield `none`. -/
def maybeGetStrAttr (attrs : Attrs) (name : String) : Option String :=
  match lookupKV attrs name with
  | some (AttrV.str s) => some s
  | _ => none

/-- Accessor for a required string attribute (`fetchers::getStrAttr`): throws
when the attribute is missing. -/
def getStrAttr (attrs : Attrs) (name : String) : Except FErr String :=
  match maybeGetStrAttr attrs name with
  | some s => Except.ok s
  | none => Except.error (FErr.missingAttr name)

/-- Accessor combining `getStrAttr` with `parseURL` as `pijul.cc` always uses
them together (lines 86, 107, 138, 170): the stored string must be present and
be a URL the external parser accepts. -/
def getUrlAttr (attrs : Attrs) (name : String) : Except FErr ParsedURL :=
  match lookupKV attrs name with
  | some (AttrV.urlv u) => Except.ok u
  | some _ => Except.error FErr.urlParseError
  | none => Except.error (FErr.missingAttr name)

/-- Descriptor (`fetchers::Input`): the attribute set plus the `locked` mark. -/
structure Input where
  attrs : Attrs
  locked : Bool
deriving DecidableEq

/-- String drop by character count, as `std::string(s, 6)` drops the first six
characters (line 50). -/
def dropChars (s : String) (n : Nat) : String := ⟨s.data.drop n⟩

/-- Map insertion that keeps an existing binding (`std::map::emplace`). -/
def emplaceA (attrs : Attrs) (key : String) (value : AttrV) : Attrs :=
  match lookupKV attrs key with
  | some _ => attrs
  | none => attrs ++ [(key, value)]

/-- Map insertion that keeps an existing binding (`std::map::emplace`), for
URL query maps. -/
def emplaceQ (q : List (String × String)) (key value : String) : List (String × String) :=
  match lookupKV q key with
  | some _ => q
  | none => q ++ [(key, value)]

/-- Map insertion that replaces an existing binding
(`std::map::insert_or_assign`), for URL query maps. -/
def insertOrAssignQ : List (String × String) → String → String → List (String × String)
  | [], key, value => [(key, value)]
  | p :: rest, key, value =>
    if p.1 = key then (key, value) :: rest else p :: insertOrAssignQ rest key value

/-- One step of the query loop of `inputFromURL` (lines 56-62): a reserved
parameter (`channel`/`state`) is lifted into the attribute set, every other
parameter is kept in the stripped URL `url2`. -/
def liftQuery (acc : Attrs × ParsedURL) (nv : String × String) : Attrs × ParsedURL :=
  if nv.1 = "channel" ∨ nv.1 = "state" then
    (emplaceA acc.1 nv.1 (AttrV.str nv.2), acc.2)
  else
    (acc.1, { acc.2 with query := emplaceQ acc.2.query nv.1 nv.2 })

/-- The state after the query loop of `inputFromURL` (lines 49-62): the
attribute set so far (`type` plus the lifted `channel`/`state`) and the
scheme-stripped URL `url2` carrying the remaining query parameters. -/
def fromURLFold (u : ParsedURL) : Attrs × ParsedURL :=
  u.query.foldl liftQuery
    ([("type", AttrV.str "pijul")], { u with scheme := dropChars u.scheme 6, query := [] })

/-- The attribute set `inputFromURL` builds before delegating to
`inputFromAttrs` (lines 49-64): the loop state plus the stored `url`
(line 64). -/
def fromURLAttrs (u : ParsedURL) : Attrs :=
  emplaceA (fromURLFold u).1 "url" (AttrV.urlv (fromURLFold u).2)

/-- The attribute allow-list of `inputFromAttrs` (lines 76-84). -/
def allowedAttr (name : String) : Bool :=
  decide (name = "type") || decide (name = "url") || decide (name = "channel") ||
  decide (name = "state") || decide (name = "narHash") || decide (name = "lastModified")

/-- `PijulInputScheme::inputFromAttrs` (lines 70-96): reject a foreign `type`,
validate the allow-list, require a parseable `url`, and mark the input locked
when both `channel` and `state` are present. -/
def inputFromAttrs (attrs : Attrs) : Except FErr (Option Input) :=
  if maybeGetStrAttr attrs "type" ≠ some "pijul" then
    Except.ok none
  else
    match attrs.find? (fun kv => !allowedAttr kv.1) with
    | some kv => Except.error (FErr.unsupportedAttr kv.1)
    | none =>
      match getUrlAttr attrs "url" with
      | Except.error e => Except.error e
      | Except.ok _ =>
        Except.ok (some
          { attrs := attrs
            locked := (maybeGetStrAttr attrs "channel").isSome &&
                      (maybeGetStrAttr attrs "state").isSome })

/-- `PijulInputScheme::inputFromURL` (lines 43-67): only the three prefixed
schemes are recognized; the prefix is stripped, the reserved query parameters
are lifted, and the result is delegated to `inputFromAttrs`. -/
def inputFromURL (url : ParsedURL) (requireTree : Bool) : Except FErr (Option Input) :=
  if url.scheme ≠ "pijul+http" ∧ url.scheme ≠ "pijul+https" ∧ url.scheme ≠ "pijul+ssh" then
    Except.ok none
  else
    inputFromAttrs (fromURLAttrs url)

/-- `PijulInputScheme::toURL` (lines 104-122): parse the stored `url`, re-add
the `pijul+` scheme prefix unless the scheme is the bare `pijul`, and re-inject
`channel`/`state` as query parameters. -/
def toURL (input : Input) : Except FErr ParsedURL :=
  match getUrlAttr input.attrs "url" with
  | Except.error e => Except.error e
  | Except.ok url0 =>
    let url1 := if url0.scheme ≠ "pijul" then { url0 with scheme := "pijul+" ++ url0.scheme } else url0
    let url2 :=
      match maybeGetStrAttr input.attrs "channel" with
      | some c => { url1 with query := insertOrAssignQ url1.query "channel" c }
      | none => url1
    let url3 :=
      match maybeGetStrAttr input.attrs "state" with
      | some s => { url2 with query := insertOrAssignQ url2.query "state" s }
      | none => url2
    Except.ok url3

/-- Modelled from the spec (glossary: channel is the branch analog, state the
commit analog): `Input::getRef`, the branch-like accessor used by
`getSourcePath`; the generic `Input` accessors live outside the excerpt. -/
def Input.getRef (i : Input) : Option String := maybeGetStrAttr i.attrs "channel"

/-- Modelled from the spec (glossary): `Input::getRev`, the immutable-snapshot
accessor used by `getSourcePath`; see `Input.getRef`. -/
def Input.getRev (i : Input) : Option String := maybeGetStrAttr i.attrs "state"

/-- `PijulInputScheme::getSourcePath` (lines 136-145): expose the filesystem
path only for a `file`-scheme URL with neither ref nor rev pinned. -/
def getSourcePath (input : Input) : Except FErr (Option String) :=
  match getUrlAttr input.attrs "url" with
  | Except.error e => Except.error e
  | Except.ok url =>
    if url.scheme = "file" ∧ Input.getRef input = none ∧ Input.getRev input = none then
      Except.ok (some url.path)
    else
      Except.ok none

/-- Modelled from the spec (§4.3 step 1): the caller-supplied or derived
identifier `Input::getName` (outside the excerpt), defaulting to "source". -/
def Input.getName (i : Input) : String :=
  match maybeGetStrAttr i.attrs "name" with
  | some n => n
  | none => "source"

/-! ## The two-tier cache collaborator -/

/-- Content handle returned by the content-addressed store (opaque). -/
abbrev StorePath := String

/-- One cache entry: key, metadata, content handle, and the final mark.
Modelled from the spec (§3 Cache Entry, §6 cache collaborator interface). -/
structure CacheEntry where
  key : Attrs
  infoAttrs : Attrs
  storePath : StorePath
  isFinal : Bool
deriving DecidableEq

/-- The cache collaborator state, newest entry first.  Modelled from the spec
(§3, §6): `lookup` returns the most recent entry for a key, `add` supersedes
(last writer wins). -/
abbrev Cache : Type := List CacheEntry

/-- Key equivalence: two attribute maps are the same `std::map` when they have
the same size and agree on every lookup. -/
def attrsEqvB (a b : Attrs) : Bool :=
  a.length == b.length && a.all (fun kv => decide (lookupKV b kv.1 = some kv.2))

/-- Find the most recent cache entry for a key. -/
def cacheFind (c : Cache) (k : Attrs) : Option CacheEntry :=
  c.find? (fun e => attrsEqvB e.key k)

/-- `Cache::lookup` of the collaborator (spec §6). -/
def cacheLookup (c : Cache) (k : Attrs) : Option (Attrs × StorePath) :=
  (cacheFind c k).map (fun e => (e.infoAttrs, e.storePath))

/-- `Cache::add` of the collaborator (spec §6): the new entry supersedes any
older entry under an equivalent key. -/
def cacheAdd (c : Cache) (k : Attrs) (info : Attrs) (sp : StorePath) (final : Bool) : Cache :=
  { key := k, infoAttrs := info, storePath := sp, isFinal := final } :: c

/-! ## The resolver -/

/-- Probe result (`PijulInputScheme::RepoStatus`, lines 159-164). -/
structure RepoStatus where
  channel : String
  state : String
  lastModified : Nat
deriving DecidableEq

/-- Outcome of the external clone + probe step for one resolution: either some
invoked subprocess fails (non-zero exit or unparseable output), or the clone
materializes, the store ingests it as `storePath`, and the probe reports
`status`.  Modelled from the spec (§4.2, §6): the subprocess and the store are
external collaborators. -/
inductive ProbeOutcome where
  | fails
  | ok (storePath : StorePath) (status : RepoStatus)
deriving DecidableEq

/-- The clone/validate overload of `doFetch` (lines 237-281): clone (with
`--channel`/`--state` when requested), probe, and fail with a mismatch error
when a requested channel or state differs from the probed one. -/
def doFetchClone (probe : ProbeOutcome) (channel state : Option String) :
    Except FErr (StorePath × RepoStatus) :=
  match probe with
  | ProbeOutcome.fails => Except.error FErr.execError
  | ProbeOutcome.ok sp rs =>
    match channel with
    | some c =>
      if c = rs.channel then
        match state with
        | some s =>
          if s = rs.state then Except.ok (sp, rs)
          else Except.error (FErr.stateMismatch s rs.state)
        | none => Except.ok (sp, rs)
      else Except.error (FErr.channelMismatch c rs.channel)
    | none =>
      match state with
      | some s =>
        if s = rs.state then Except.ok (sp, rs)
        else Except.error (FErr.stateMismatch s rs.state)
      | none => Except.ok (sp, rs)

/-- `mergeOne` (lines 298-309): keep an equal existing binding, insert an
absent one, and throw on a conflicting one. -/
def mergeOne (dest : Attrs) (key : String) (attr : AttrV) : Except FErr Attrs :=
  match lookupKV dest key with
  | some v => if v = attr then Except.ok dest else Except.error (FErr.attributeConflict key)
  | none => Except.ok (dest ++ [(key, attr)])

/-- `mergeAttrs` (lines 283-296): drain the source map into the destination
via `mergeOne`; the first conflict aborts the merge. -/
def mergeAttrs (dest : Attrs) : Attrs → Except FErr Attrs
  | [] => Except.ok dest
  | (k, v) :: rest =>
    match mergeOne dest k v with
    | Except.ok d => mergeAttrs d rest
    | Except.error e => Except.error e

/-- The impure cache key `{type, name, url}` (lines 175-179), in the sorted
order the `std::map` stores it. -/
def impureKeyOf (name url : String) : Attrs :=
  [("name", AttrV.str name), ("type", AttrV.str "pijul"), ("url", AttrV.str url)]

/-- The locked cache key `{type, name, channel, state}` (lines 187-192), in
the sorted order the `std::map` stores it. -/
def lockedKeyOf (name channel state : String) : Attrs :=
  [("channel", AttrV.str channel), ("name", AttrV.str name),
   ("state", AttrV.str state), ("type", AttrV.str "pijul")]

/-- The fresh unlocked key `{type, name}` (lines 210-215), in sorted order. -/
def unlockedKeyOf (name : String) : Attrs :=
  [("name", AttrV.str name), ("type", AttrV.str "pijul")]

/-- The metadata written for a fresh resolution (lines 222-226), in the sorted
order the `std::map` stores it. -/
def infoAttrsOf (rs : RepoStatus) : Attrs :=
  [("channel", AttrV.str rs.channel), ("lastModified", AttrV.int rs.lastModified),
   ("state", AttrV.str rs.state)]

/-- One cached-against-requested comparison of the impure-hit check (line 203):
an absent request matches anything; a present one is compared against
`getStrAttr(infoAttrs, key)`, which throws when the cached metadata lacks the
attribute. -/
def matchesCached (req : Option String) (info : Attrs) (key : String) : Except FErr Bool :=
  match req with
  | none => Except.ok true
  | some v => (getStrAttr info key).map (fun cached => decide (v = cached))

/-- The clone-validate-persist tail of `doFetch` (lines 208-234): clone fresh,
merge the probed channel/state into the cache key, write the impure key (only
when the request was not locked) and the final key, and return the fresh
metadata.  The `Bool` component records that the clone step ran. -/
def clonePhase (cache : Cache) (probe : ProbeOutcome) (name repoUrl : String)
    (channel state : Option String) : Cache × Bool × Except FErr (StorePath × Attrs) :=
  match doFetchClone probe channel state with
  | Except.error e => (cache, true, Except.error e)
  | Except.ok (sp, rs) =>
    let key0 :=
      match channel, state with
      | some c, some s => lockedKeyOf name c s
      | _, _ => unlockedKeyOf name
    match mergeAttrs key0 [("channel", AttrV.str rs.channel), ("state", AttrV.str rs.state)] with
    | Except.error e => (cache, true, Except.error e)
    | Except.ok key =>
      let infoAttrs := infoAttrsOf rs
      let cache1 :=
        if channel.isSome && state.isSome then cache
        else cacheAdd cache (impureKeyOf name repoUrl) infoAttrs sp false
      (cacheAdd cache1 key infoAttrs sp true, true, Except.ok (sp, infoAttrs))

/-- The impure-key stage of `doFetch` (lines 200-206): on a hit whose cached
channel/state are compatible with the request, return the cached entry;
otherwise fall through to the clone phase.  The comparisons short-circuit as
the C++ `&&`/`||` do. -/
def impurePhase (cache : Cache) (probe : ProbeOutcome) (name repoUrl : String)
    (channel state : Option String) : Cache × Bool × Except FErr (StorePath × Attrs) :=
  match cacheLookup cache (impureKeyOf name repoUrl) with
  | some (info, sp) =>
    match matchesCached channel info "channel" with
    | Except.error e => (cache, false, Except.error e)
    | Except.ok false => clonePhase cache probe name repoUrl channel state
    | Except.ok true =>
      match matchesCached state info "state" with
      | Except.error e => (cache, false, Except.error e)
      | Except.ok false => clonePhase cache probe name repoUrl channel state
      | Except.ok true => (cache, false, Except.ok (sp, info))
  | none => clonePhase cache probe name repoUrl channel state

/-- The static `doFetch` overload (lines 166-235) after its argument
extraction: locked lookup, impure lookup, then clone/validate/persist.  The
`Bool` component records whether the clone step ran. -/
def doFetchCore (cache : Cache) (probe : ProbeOutcome) (name repoUrl : String)
    (channel state : Option String) : Cache × Bool × Except FErr (StorePath × Attrs) :=
  match channel, state with
  | some c, some s =>
    match cacheLookup cache (lockedKeyOf name c s) with
    | some (info, sp) => (cache, false, Except.ok (sp, info))
    | none => impurePhase cache probe name repoUrl (some c) (some s)
  | _, _ => impurePhase cache probe name repoUrl channel state

/-- The static `doFetch` overload (lines 166-235): extract name, repo URL and
the requested channel/state from the input, then run the resolver core. -/
def doFetch (cache : Cache) (probe : ProbeOutcome) (input : Input) :
    Cache × Bool × Except FErr (StorePath × Attrs) :=
  match getUrlAttr input.attrs "url" with
  | Except.error e => (cache, false, Except.error e)
  | Except.ok url =>
    doFetchCore cache probe input.getName url.base
      (maybeGetStrAttr input.attrs "channel") (maybeGetStrAttr input.attrs "state")

/-! ## The channel-listing parser -/

/-- `std::string::find(c, pos)` (line 357): index of the first occurrence of
`c` at or after `pos`, `none` standing for `std::string::npos`. -/
def cppFind (s : List Char) (c : Char) (pos : Nat) : Option Nat :=
  match (s.drop pos).findIdx? (fun d => d == c) with
  | some i => some (pos + i)
  | none => none

/-- `substr(pos, nl - pos)` (line 358): the current line, running to the end
of the output when no further newline exists (`nl` = npos). -/
def lineAt (s : List Char) (pos : Nat) (nl : Option Nat) : List Char :=
  match nl with
  | some n => (s.drop pos).take (n - pos)
  | none => s.drop pos

/-- Outcome of one iteration of the `getRepoChannel` loop body. -/
inductive GRCStep where
  | ret (name : List Char)
  | oorFail
  | parseFail
  | cont (pos : Nat)
deriving DecidableEq

/-- One iteration of the `do`-loop of `getRepoChannel` (lines 356-369): an
empty line `continue`s without advancing `pos`; a line starting with `*`
returns its remainder after two characters (`substr(2)` raises out-of-range on
a shorter line); any other line moves `pos` to the newline index, and the loop
ends (then throws, line 371) when `find` reported npos. -/
def grcStep (out : List Char) (pos : Nat) : GRCStep :=
  let nl := cppFind out '\n' pos
  let line := lineAt out pos nl
  if line.isEmpty then GRCStep.cont pos
  else if line.head? = some '*' then
    if 2 ≤ line.length then GRCStep.ret (line.drop 2) else GRCStep.oorFail
  else
    match nl with
    | some n => GRCStep.cont n
    | none => GRCStep.parseFail

/-- Result of `getRepoChannel` when it terminates. -/
inductive GRCOut where
  | ok (name : List Char)
  | oorErr
  | parseErr
deriving DecidableEq

/-- Fuelled run of the `getRepoChannel` loop from position `pos`: `none` means
the loop has not finished within `fuel` iterations. -/
def grcRun (out : List Char) : Nat → Nat → Option GRCOut
  | 0, _ => none
  | fuel + 1, pos =>
    match grcStep out pos with
    | GRCStep.ret n => some (GRCOut.ok n)
    | GRCStep.oorFail => some GRCOut.oorErr
    | GRCStep.parseFail => some GRCOut.parseErr
    | GRCStep.cont p => grcRun out fuel p

/-- `PijulInputScheme::getRepoChannel` (lines 350-372) on a given probe
output, run with the given fuel; `none` means the loop is still running. -/
def getRepoChannelFuel (out : List Char) (fuel : Nat) : Option GRCOut :=
  grcRun out fuel 0

/-- A channel listing in which the line marked `* ` is not the first line:
`pijul channel` lists every channel and marks the current one. -/
def chanListing : List Char := "  other\n* main\n".data

/-! ## Association-list facts -/

theorem lookupKV_append {β : Type} (l₁ l₂ : List (String × β)) (k : String) :
    lookupKV (l₁ ++ l₂) k =
      match lookupKV l₁ k with
      | some v => some v
      | none => lookupKV l₂ k := by
  induction l₁ with
  | nil => simp [lookupKV]
  | cons p rest ih =>
    by_cases h : p.1 = k <;> simp [lookupKV, h, ih]

theorem lookupKV_eq_none_of_forall {β : Type} (l : List (String × β)) (k : String)
    (h : ∀ p ∈ l, p.1 ≠ k) : lookupKV l k = none := by
  induction l with
  | nil => rfl
  | cons p rest ih =>
    have hp : p.1 ≠ k := h p (List.mem_cons_self _ _)
    simp only [lookupKV, if_neg hp]
    exact ih (fun q hq => h q (List.mem_cons_of_mem _ hq))

theorem lookupKV_eq_none_of_nodup_head {β : Type} (k0 : String) (v0 : β)
    (rest : List (String × β)) (hnd : (((k0, v0) :: rest).map Prod.fst).Nodup) :
    lookupKV rest k0 = none := by
  apply lookupKV_eq_none_of_forall
  intro p hp hpk
  have : k0 ∈ rest.map Prod.fst := hpk ▸ List.mem_map_of_mem Prod.fst hp
  exact (List.nodup_cons.mp (by simpa using hnd)).1 this

theorem emplaceA_of_absent (attrs : Attrs) (key : String) (v : AttrV)
    (h : lookupKV attrs key = none) : emplaceA attrs key v = attrs ++ [(key, v)] := by
  unfold emplaceA
  rw [h]

theorem lookupKV_emplaceA_ne (attrs : Attrs) (key k : String) (v : AttrV) (h : k ≠ key) :
    lookupKV (emplaceA attrs key v) k = lookupKV attrs k := by
  unfold emplaceA
  cases hl : lookupKV attrs key with
  | some w => rfl
  | none =>
    rw [lookupKV_append]
    cases hk : lookupKV attrs k with
    | some w => rfl
    | none =>
      simp only [lookupKV]
      rw [if_neg (fun he : key = k => h he.symm)]

theorem insertOrAssignQ_of_absent (q : List (String × String)) (k v : String)
    (h : lookupKV q k = none) : insertOrAssignQ q k v = q ++ [(k, v)] := by
  induction q with
  | nil => rfl
  | cons p rest ih =>
    unfold lookupKV at h
    by_cases hp : p.1 = k
    · rw [if_pos hp] at h; exact absurd h (by simp)
    · rw [if_neg hp] at h
      simp only [insertOrAssignQ, if_neg hp, List.cons_append]
      rw [ih h]

/-! ## Facts about the query loop of `inputFromURL` -/

theorem liftQuery_fst_other (l : List (String × String)) (acc : Attrs × ParsedURL)
    (k : String) (h1 : k ≠ "channel") (h2 : k ≠ "state") :
    lookupKV (l.foldl liftQuery acc).1 k = lookupKV acc.1 k := by
  induction l generalizing acc with
  | nil => rfl
  | cons p rest ih =>
    rw [List.foldl_cons, ih]
    unfold liftQuery
    by_cases hres : p.1 = "channel" ∨ p.1 = "state"
    · rw [if_pos hres]
      exact lookupKV_emplaceA_ne _ _ _ _
        (by rcases hres with h | h <;> rw [h] <;> assumption)
    · rw [if_neg hres]

theorem liftQuery_fst_reserved (l : List (String × String)) (acc : Attrs × ParsedURL)
    (k : String) (hk : k = "channel" ∨ k = "state") :
    lookupKV (l.foldl liftQuery acc).1 k =
      match lookupKV acc.1 k with
      | some v => some v
      | none => (lookupKV l k).map AttrV.str := by
  induction l generalizing acc with
  | nil => cases h : lookupKV acc.1 k <;> simp [lookupKV, h]
  | cons p rest ih =>
    rw [List.foldl_cons, ih]
    by_cases hpk : p.1 = k
    · have hres : p.1 = "channel" ∨ p.1 = "state" := hpk ▸ hk
      unfold liftQuery
      rw [if_pos hres]
      unfold emplaceA
      rw [hpk]
      cases h : lookupKV acc.1 k with
      | some v => simp [h]
      | none =>
        rw [lookupKV_append, h]
        simp [lookupKV, hpk]
    · unfold liftQuery
      by_cases hres : p.1 = "channel" ∨ p.1 = "state"
      · rw [if_pos hres, lookupKV_emplaceA_ne _ _ _ _ (fun he => hpk he.symm)]
        simp [lookupKV, hpk]
      · rw [if_neg hres]
        simp [lookupKV, hpk]

theorem liftQuery_snd_shape (l : List (String × String)) (acc : Attrs × ParsedURL) :
    (l.foldl liftQuery acc).2.scheme = acc.2.scheme ∧
    (l.foldl liftQuery acc).2.authority = acc.2.authority ∧
    (l.foldl liftQuery acc).2.path = acc.2.path := by
  induction l generalizing acc with
  | nil => exact ⟨rfl, rfl, rfl⟩
  | cons p rest ih =>
    rw [List.foldl_cons]
    by_cases hres : p.1 = "channel" ∨ p.1 = "state"
    · rw [show liftQuery acc p = (emplaceA acc.1 p.1 (AttrV.str p.2), acc.2) from by
        rw [liftQuery, if_pos hres]]
      exact ih _
    · rw [show liftQuery acc p = (acc.1, { acc.2 with query := emplaceQ acc.2.query p.1 p.2 })
          from by rw [liftQuery, if_neg hres]]
      exact ih _

theorem liftQuery_snd_query (l : List (String × String)) (acc : Attrs × ParsedURL)
    (hnd : (l.map Prod.fst).Nodup)
    (hdisj : ∀ p ∈ l, lookupKV acc.2.query p.1 = none) :
    (l.foldl liftQuery acc).2.query =
      acc.2.query ++ l.filter (fun p => !(decide (p.1 = "channel" ∨ p.1 = "state"))) := by
  induction l generalizing acc with
  | nil => simp
  | cons p rest ih =>
    rw [List.foldl_cons]
    have hndr : (rest.map Prod.fst).Nodup := by
      rw [List.map_cons, List.nodup_cons] at hnd
      exact hnd.2
    by_cases hres : p.1 = "channel" ∨ p.1 = "state"
    · rw [show liftQuery acc p = (emplaceA acc.1 p.1 (AttrV.str p.2), acc.2) from by
        rw [liftQuery, if_pos hres]]
      rw [ih (emplaceA acc.1 p.1 (AttrV.str p.2), acc.2) hndr
        (fun q hq => hdisj q (List.mem_cons_of_mem _ hq))]
      rw [List.filter_cons]
      simp [hres]
    · have hnone : lookupKV acc.2.query p.1 = none := hdisj p (List.mem_cons_self _ _)
      have hemp : emplaceQ acc.2.query p.1 p.2 = acc.2.query ++ [(p.1, p.2)] := by
        unfold emplaceQ
        rw [hnone]
      rw [show liftQuery acc p = (acc.1, { acc.2 with query := emplaceQ acc.2.query p.1 p.2 })
          from by rw [liftQuery, if_neg hres]]
      rw [ih _ hndr]
      · show (emplaceQ acc.2.query p.1 p.2) ++ _ = _
        rw [hemp, List.filter_cons]
        simp only [hres, decide_False, Bool.not_false, if_pos, List.append_assoc,
          List.singleton_append]
      · intro q hq
        show lookupKV (emplaceQ acc.2.query p.1 p.2) q.1 = none
        rw [hemp, lookupKV_append, hdisj q (List.mem_cons_of_mem _ hq)]
        have hqp : p.1 ≠ q.1 := by
          intro he
          rw [List.map_cons, List.nodup_cons] at hnd
          exact hnd.1 (he ▸ List.mem_map_of_mem Prod.fst hq)
        simp [lookupKV, hqp]

theorem liftQuery_fst_keys (l : List (String × String)) (acc : Attrs × ParsedURL) :
    ∀ kv ∈ (l.foldl liftQuery acc).1, kv ∈ acc.1 ∨ kv.1 = "channel" ∨ kv.1 = "state" := by
  induction l generalizing acc with
  | nil => exact fun kv h => Or.inl h
  | cons p rest ih =>
    intro kv h
    rw [List.foldl_cons] at h
    rcases ih _ kv h with h' | h'
    · by_cases hres : p.1 = "channel" ∨ p.1 = "state"
      · rw [liftQuery, if_pos hres] at h'
        unfold emplaceA at h'
        cases hl : lookupKV acc.1 p.1 with
        | some w => rw [hl] at h'; exact Or.inl h'
        | none =>
          rw [hl] at h'
          rcases List.mem_append.mp h' with hm | hm
          · exact Or.inl hm
          · simp only [List.mem_singleton] at hm
            subst hm
            exact Or.inr hres
      · rw [liftQuery, if_neg hres] at h'
        exact Or.inl h'
    · exact Or.inr h'

theorem fromURLFold_fst_url (u : ParsedURL) : lookupKV (fromURLFold u).1 "url" = none := by
  unfold fromURLFold
  rw [liftQuery_fst_other _ _ _ (by decide) (by decide)]
  rfl

theorem fromURLAttrs_lookup_url (u : ParsedURL) :
    lookupKV (fromURLAttrs u) "url" = some (AttrV.urlv (fromURLFold u).2) := by
  unfold fromURLAttrs
  rw [emplaceA_of_absent _ _ _ (fromURLFold_fst_url u), lookupKV_append, fromURLFold_fst_url]
  simp [lookupKV]

theorem fromURLAttrs_lookup_type (u : ParsedURL) :
    lookupKV (fromURLAttrs u) "type" = some (AttrV.str "pijul") := by
  unfold fromURLAttrs
  rw [emplaceA_of_absent _ _ _ (fromURLFold_fst_url u), lookupKV_append]
  unfold fromURLFold
  rw [liftQuery_fst_other _ _ _ (by decide) (by decide)]
  rfl

theorem fromURLAttrs_reserved (u : ParsedURL) (k : String)
    (hk : k = "channel" ∨ k = "state") :
    maybeGetStrAttr (fromURLAttrs u) k = lookupKV u.query k := by
  have hne : k ≠ "url" := by rcases hk with h | h <;> rw [h] <;> decide
  have h : lookupKV (fromURLAttrs u) k = (lookupKV u.query k).map AttrV.str := by
    unfold fromURLAttrs
    rw [emplaceA_of_absent _ _ _ (fromURLFold_fst_url u), lookupKV_append]
    unfold fromURLFold
    rw [liftQuery_fst_reserved _ _ _ hk]
    have hinit : lookupKV ([("type", AttrV.str "pijul")] : Attrs) k = none := by
      simp only [lookupKV]
      rw [if_neg (by rcases hk with h | h <;> rw [h] <;> decide)]
    rw [hinit]
    cases hq : lookupKV u.query k with
    | some v => rfl
    | none =>
      show lookupKV [("url", AttrV.urlv (fromURLFold u).2)] k = Option.map AttrV.str none
      simp only [lookupKV]
      rw [if_neg (fun he : "url" = k => hne he.symm)]
      rfl
  unfold maybeGetStrAttr
  rw [h]
  cases lookupKV u.query k <;> rfl

theorem fromURLAttrs_allowed (u : ParsedURL) :
    (fromURLAttrs u).find? (fun kv => !allowedAttr kv.1) = none := by
  rw [List.find?_eq_none]
  intro kv hm
  have hm' : kv ∈ (fromURLFold u).1 ++ [("url", AttrV.urlv (fromURLFold u).2)] := by
    rw [← emplaceA_of_absent _ _ _ (fromURLFold_fst_url u)]
    exact hm
  rcases List.mem_append.mp hm' with hm2 | hm2
  · rcases liftQuery_fst_keys _ _ kv hm2 with h | h | h
    · have : kv = ("type", AttrV.str "pijul") := by simpa using h
      rw [this]
      decide
    · simp [allowedAttr, h]
    · simp [allowedAttr, h]
  · have : kv = ("url", AttrV.urlv (fromURLFold u).2) := by simpa using hm2
    rw [this]
    simp [allowedAttr]

theorem inputFromAttrs_fromURLAttrs (u : ParsedURL) :
    inputFromAttrs (fromURLAttrs u) = Except.ok (some
      { attrs := fromURLAttrs u
        locked := (lookupKV u.query "channel").isSome && (lookupKV u.query "state").isSome }) := by
  have htype : maybeGetStrAttr (fromURLAttrs u) "type" = some "pijul" := by
    unfold maybeGetStrAttr
    rw [fromURLAttrs_lookup_type]
  unfold inputFromAttrs
  rw [if_neg (by rw [htype]; exact fun h => h rfl)]
  rw [fromURLAttrs_allowed]
  have hurl : getUrlAttr (fromURLAttrs u) "url" = Except.ok (fromURLFold u).2 := by
    unfold getUrlAttr
    rw [fromURLAttrs_lookup_url]
  rw [hurl]
  rw [fromURLAttrs_reserved u "channel" (Or.inl rfl), fromURLAttrs_reserved u "state" (Or.inr rfl)]

/-! ## Claim C2: channel discovery -/

/-- C2: the claim states that `getRepoChannel` terminates on every channel
listing, returning the remainder of the line marked `*` wherever it occurs.
The code refutes this: on the listing `"  other\n* main\n"`, whose marked line
is the second line, the loop never terminates — after the first line, `pos` is
set to the index of the newline itself, the resulting empty line hits the
`continue` that never advances `pos`, and the loop repeats this state forever.
For every fuel bound, the fuelled run is still unfinished. -/
theorem c2_channel_nontermination :
    ∀ fuel : Nat, getRepoChannelFuel chanListing fuel = none := by
  have hstep7 : grcStep chanListing 7 = GRCStep.cont 7 := by decide
  have h7 : ∀ fuel : Nat, grcRun chanListing fuel 7 = none := by
    intro fuel
    induction fuel with
    | zero => rfl
    | succ n ih => simp [grcRun, hstep7, ih]
  intro fuel
  cases fuel with
  | zero => rfl
  | succ n =>
    have hstep0 : grcStep chanListing 0 = GRCStep.cont 7 := by decide
    unfold getRepoChannelFuel
    simp [grcRun, hstep0, h7]

/-! ## Claim C3: accepted URL schemes -/

/-- C3, counterexample: the claim states that `inputFromURL` also accepts the
bare family scheme `pijul`, but a URL with scheme `pijul` is not accepted —
the scheme test at line 45 only admits the three prefixed schemes. -/
theorem c3_bare_scheme_counterexample :
    inputFromURL ⟨"pijul", some "example.org", "/repo", []⟩ true = Except.ok none := by
  decide

/-- C3, amended: `inputFromURL` accepts exactly the three `+`-suffixed schemes
`pijul+http`, `pijul+https`, `pijul+ssh`; for any URL whose scheme is outside
this set — including the bare scheme `pijul` — it returns nothing, without an
error. -/
theorem c3_schemes (u : ParsedURL) (rt : Bool) :
    ((u.scheme = "pijul+http" ∨ u.scheme = "pijul+https" ∨ u.scheme = "pijul+ssh") →
      ∃ inp, inputFromURL u rt = Except.ok (some inp)) ∧
    (¬(u.scheme = "pijul+http" ∨ u.scheme = "pijul+https" ∨ u.scheme = "pijul+ssh") →
      inputFromURL u rt = Except.ok none) := by
  constructor
  · intro h
    refine ⟨{ attrs := fromURLAttrs u
              locked := (lookupKV u.query "channel").isSome &&
                        (lookupKV u.query "state").isSome }, ?_⟩
    unfold inputFromURL
    rw [if_neg (by tauto)]
    exact inputFromAttrs_fromURLAttrs u
  · intro h
    unfold inputFromURL
    rw [if_pos (by tauto)]

/-- C3, witness: the amended theorem applied to a concrete unrecognized
scheme. -/
theorem c3_schemes_witness :
    inputFromURL ⟨"pijul", some "example.org", "/repo", []⟩ false = Except.ok none :=
  (c3_schemes ⟨"pijul", some "example.org", "/repo", []⟩ false).2 (by decide)

/-! ## Claim C9: attribute validation and the locked mark -/

/-- C9: `inputFromAttrs` returns nothing when the `type` attribute is not this
scheme's discriminator; otherwise any attribute key outside the allow-list
makes it fail with a validation error naming an offending key; and a
successfully built Descriptor is locked exactly when both `channel` and
`state` are present (as the string-valued attributes of §3 of the spec). -/
theorem c9_fromAttrs (attrs : Attrs) :
    (maybeGetStrAttr attrs "type" ≠ some "pijul" → inputFromAttrs attrs = Except.ok none) ∧
    (∀ kv, kv ∈ attrs → allowedAttr kv.1 = false →
      maybeGetStrAttr attrs "type" = some "pijul" →
      ∃ k, inputFromAttrs attrs = Except.error (FErr.unsupportedAttr k) ∧
        allowedAttr k = false ∧ k ∈ attrs.map Prod.fst) ∧
    (∀ inp, inputFromAttrs attrs = Except.ok (some inp) →
      (inp.locked = true ↔
        ((maybeGetStrAttr attrs "channel").isSome = true ∧
         (maybeGetStrAttr attrs "state").isSome = true))) := by
  refine ⟨?_, ?_, ?_⟩
  · intro h
    unfold inputFromAttrs
    rw [if_pos h]
  · intro kv hm hbad htype
    have hsome : (attrs.find? (fun kv => !allowedAttr kv.1)).isSome := by
      rw [List.find?_isSome]
      exact ⟨kv, hm, by rw [hbad]; rfl⟩
    obtain ⟨kv', hfind⟩ := Option.isSome_iff_exists.mp hsome
    have hbad' : allowedAttr kv'.1 = false := by
      have := List.find?_some hfind
      simpa using this
    have hmem' : kv' ∈ attrs := List.mem_of_find?_eq_some hfind
    refine ⟨kv'.1, ?_, hbad', List.mem_map_of_mem Prod.fst hmem'⟩
    unfold inputFromAttrs
    rw [if_neg (by rw [htype]; exact fun h => h rfl), hfind]
  · intro inp hok
    unfold inputFromAttrs at hok
    by_cases htype : maybeGetStrAttr attrs "type" ≠ some "pijul"
    · rw [if_pos htype] at hok
      exact absurd hok (by simp)
    · rw [if_neg htype] at hok
      cases hfind : attrs.find? (fun kv => !allowedAttr kv.1) with
      | some kv => rw [hfind] at hok; exact absurd hok (by simp)
      | none =>
        rw [hfind] at hok
        cases hurl : getUrlAttr attrs "url" with
        | error e => rw [hurl] at hok; exact absurd hok (by simp)
        | ok w =>
          rw [hurl] at hok
          have : inp = { attrs := attrs
                         locked := (maybeGetStrAttr attrs "channel").isSome &&
                                   (maybeGetStrAttr attrs "state").isSome } := by
            simpa using hok.symm
          rw [this]
          simp [Bool.and_eq_true]

/-- C9, witness: the theorem applied to an attribute set with a foreign
`type`. -/
theorem c9_fromAttrs_witness :
    inputFromAttrs [("type", AttrV.str "git")] = Except.ok none :=
  (c9_fromAttrs [("type", AttrV.str "git")]).1 (by decide)

/-! ## Claim C10: the locally editable source path -/

/-- C10: `getSourcePath` returns the URL's filesystem path exactly when the
stored url has scheme `file` and the input carries neither a ref (channel) nor
a rev (state); in every other case it returns nothing. -/
theorem c10_sourcePath (input : Input) (u : ParsedURL)
    (h : getUrlAttr input.attrs "url" = Except.ok u) :
    (getSourcePath input = Except.ok (some u.path) ↔
      (u.scheme = "file" ∧ Input.getRef input = none ∧ Input.getRev input = none)) ∧
    (¬(u.scheme = "file" ∧ Input.getRef input = none ∧ Input.getRev input = none) →
      getSourcePath input = Except.ok none) := by
  unfold getSourcePath
  rw [h]
  dsimp only
  by_cases hc : u.scheme = "file" ∧ Input.getRef input = none ∧ Input.getRev input = none
  · rw [if_pos hc]
    exact ⟨⟨fun _ => hc, fun _ => rfl⟩, fun hn => absurd hc hn⟩
  · rw [if_neg hc]
    refine ⟨⟨fun he => absurd he (by simp), fun hcc => absurd hcc hc⟩, fun _ => rfl⟩

/-- C10, witness: the theorem applied to an unpinned `file`-scheme input and
to a channel-pinned one. -/
theorem c10_sourcePath_witness :
    getSourcePath ⟨[("type", AttrV.str "pijul"),
      ("url", AttrV.urlv ⟨"file", none, "/home/repo", []⟩)], false⟩ =
      Except.ok (some "/home/repo") :=
  (c10_sourcePath ⟨[("type", AttrV.str "pijul"),
      ("url", AttrV.urlv ⟨"file", none, "/home/repo", []⟩)], false⟩
    ⟨"file", none, "/home/repo", []⟩ (by decide)).1.mpr (by decide)

/-! ## Claim C8: the metadata merge -/

theorem mergeAttrs_ok_of_compat (source : Attrs) :
    ∀ dest : Attrs, (source.map Prod.fst).Nodup →
    (∀ k v w, lookupKV dest k = some v → lookupKV source k = some w → v = w) →
    ∃ d, mergeAttrs dest source = Except.ok d ∧
      ∀ k, lookupKV d k =
        match lookupKV dest k with
        | some v => some v
        | none => lookupKV source k := by
  induction source with
  | nil =>
    intro dest _ _
    refine ⟨dest, rfl, fun k => ?_⟩
    cases lookupKV dest k <;> rfl
  | cons p rest ih =>
    intro dest hnd hcompat
    obtain ⟨k0, v0⟩ := p
    have hrest0 : lookupKV rest k0 = none := lookupKV_eq_none_of_nodup_head k0 v0 rest hnd
    have hndr : (rest.map Prod.fst).Nodup := by
      rw [List.map_cons, List.nodup_cons] at hnd
      exact hnd.2
    have hhead : lookupKV ((k0, v0) :: rest) k0 = some v0 := by
      simp [lookupKV]
    cases hd : lookupKV dest k0 with
    | some v =>
      have hv : v = v0 := hcompat k0 v v0 hd hhead
      have hone : mergeOne dest k0 v0 = Except.ok dest := by
        unfold mergeOne
        rw [hd]
        exact if_pos hv
      have hstep : mergeAttrs dest ((k0, v0) :: rest) = mergeAttrs dest rest := by
        show (match mergeOne dest k0 v0 with
          | Except.ok d => mergeAttrs d rest
          | Except.error e => Except.error e) = mergeAttrs dest rest
        rw [hone]
      rw [hstep]
      have hcompat' : ∀ k v' w, lookupKV dest k = some v' → lookupKV rest k = some w → v' = w := by
        intro k v' w h1 h2
        by_cases hk : k = k0
        · subst hk; rw [hrest0] at h2; exact absurd h2 (by simp)
        · refine hcompat k v' w h1 ?_
          simp only [lookupKV]
          rw [if_neg (fun he : k0 = k => hk he.symm)]
          exact h2
      obtain ⟨d, hmerge, hlook⟩ := ih dest hndr hcompat'
      refine ⟨d, hmerge, fun k => ?_⟩
      rw [hlook k]
      by_cases hk : k = k0
      · subst hk; rw [hd]
      · simp only [lookupKV]
        rw [if_neg (fun he : k0 = k => hk he.symm)]
    | none =>
      have hstep : mergeAttrs dest ((k0, v0) :: rest) = mergeAttrs (dest ++ [(k0, v0)]) rest := by
        show (match mergeOne dest k0 v0 with
          | Except.ok d => mergeAttrs d rest
          | Except.error e => Except.error e) = mergeAttrs (dest ++ [(k0, v0)]) rest
        unfold mergeOne
        rw [hd]
      rw [hstep]
      have hlapp : ∀ k, lookupKV (dest ++ [(k0, v0)]) k =
          match lookupKV dest k with
          | some v => some v
          | none => if k0 = k then some v0 else none := by
        intro k
        rw [lookupKV_append]
        cases lookupKV dest k <;> rfl
      have hcompat' : ∀ k v' w,
          lookupKV (dest ++ [(k0, v0)]) k = some v' → lookupKV rest k = some w → v' = w := by
        intro k v' w h1 h2
        by_cases hk : k = k0
        · subst hk; rw [hrest0] at h2; exact absurd h2 (by simp)
        · rw [hlapp k, if_neg (fun he : k0 = k => hk he.symm)] at h1
          have h1' : lookupKV dest k = some v' := by
            cases hdk : lookupKV dest k with
            | some x => rw [hdk] at h1; simpa using h1
            | none => rw [hdk] at h1; exact absurd h1 (by simp)
          refine hcompat k v' w h1' ?_
          simp only [lookupKV]
          rw [if_neg (fun he : k0 = k => hk he.symm)]
          exact h2
      obtain ⟨d, hmerge, hlook⟩ := ih (dest ++ [(k0, v0)]) hndr hcompat'
      refine ⟨d, hmerge, fun k => ?_⟩
      rw [hlook k, hlapp k]
      by_cases hk : k = k0
      · subst hk
        rw [hd, if_pos rfl, hrest0]
        simp [lookupKV]
      · rw [if_neg (fun he : k0 = k => hk he.symm)]
        cases lookupKV dest k with
        | some v => rfl
        | none =>
          simp only [lookupKV]
          rw [if_neg (fun he : k0 = k => hk he.symm)]

theorem mergeAttrs_conflict (source : Attrs) :
    ∀ dest : Attrs, (source.map Prod.fst).Nodup →
    (∃ k v w, lookupKV dest k = some v ∧ lookupKV source k = some w ∧ v ≠ w) →
    ∃ k v w, mergeAttrs dest source = Except.error (FErr.attributeConflict k) ∧
      lookupKV dest k = some v ∧ lookupKV source k = some w ∧ v ≠ w := by
  induction source with
  | nil =>
    intro dest _ hconf
    obtain ⟨k, v, w, _, h2, _⟩ := hconf
    exact absurd h2 (by simp [lookupKV])
  | cons p rest ih =>
    intro dest hnd hconf
    obtain ⟨k0, v0⟩ := p
    have hrest0 : lookupKV rest k0 = none := lookupKV_eq_none_of_nodup_head k0 v0 rest hnd
    have hndr : (rest.map Prod.fst).Nodup := by
      rw [List.map_cons, List.nodup_cons] at hnd
      exact hnd.2
    have hsrc_ne : ∀ k, k ≠ k0 → lookupKV ((k0, v0) :: rest) k = lookupKV rest k := by
      intro k hk
      simp only [lookupKV]
      rw [if_neg (fun he : k0 = k => hk he.symm)]
    cases hd : lookupKV dest k0 with
    | some v =>
      by_cases hv : v = v0
      · have hone : mergeOne dest k0 v0 = Except.ok dest := by
          unfold mergeOne
          rw [hd]
          exact if_pos hv
        have hstep : mergeAttrs dest ((k0, v0) :: rest) = mergeAttrs dest rest := by
          show (match mergeOne dest k0 v0 with
            | Except.ok d => mergeAttrs d rest
            | Except.error e => Except.error e) = mergeAttrs dest rest
          rw [hone]
        obtain ⟨k, v', w, h1, h2, hne⟩ := hconf
        have hk : k ≠ k0 := by
          intro he
          rw [he] at h1 h2
          rw [hd] at h1
          have hv' : v = v' := by simpa using h1
          have hw : w = v0 := by
            have hh : lookupKV ((k0, v0) :: rest) k0 = some v0 := by simp [lookupKV]
            rw [hh] at h2
            exact (Option.some.inj h2).symm
          exact hne ((hv'.symm.trans hv).trans hw.symm)
        rw [hsrc_ne k hk] at h2
        obtain ⟨k1, v1, w1, herr, hd1, hr1, hne1⟩ := ih dest hndr ⟨k, v', w, h1, h2, hne⟩
        have hk1 : k1 ≠ k0 := by
          intro he
          subst he
          rw [hrest0] at hr1
          exact absurd hr1 (by simp)
        refine ⟨k1, v1, w1, ?_, hd1, ?_, hne1⟩
        · rw [hstep]; exact herr
        · rw [hsrc_ne k1 hk1]; exact hr1
      · refine ⟨k0, v, v0, ?_, hd, by simp [lookupKV], hv⟩
        have hone : mergeOne dest k0 v0 = Except.error (FErr.attributeConflict k0) := by
          unfold mergeOne
          rw [hd]
          exact if_neg hv
        show (match mergeOne dest k0 v0 with
          | Except.ok d => mergeAttrs d rest
          | Except.error e => Except.error e) = Except.error (FErr.attributeConflict k0)
        rw [hone]
    | none =>
      have hstep : mergeAttrs dest ((k0, v0) :: rest) = mergeAttrs (dest ++ [(k0, v0)]) rest := by
        show (match mergeOne dest k0 v0 with
          | Except.ok d => mergeAttrs d rest
          | Except.error e => Except.error e) = mergeAttrs (dest ++ [(k0, v0)]) rest
        unfold mergeOne
        rw [hd]
      obtain ⟨k, v', w, h1, h2, hne⟩ := hconf
      have hk : k ≠ k0 := by
        intro he
        subst he
        rw [hd] at h1
        exact absurd h1 (by simp)
      have h1' : lookupKV (dest ++ [(k0, v0)]) k = some v' := by
        rw [lookupKV_append, h1]
      rw [hsrc_ne k hk] at h2
      obtain ⟨k1, v1, w1, herr, hd1, hr1, hne1⟩ := ih (dest ++ [(k0, v0)]) hndr ⟨k, v', w, h1', h2, hne⟩
      have hk1 : k1 ≠ k0 := by
        intro he
        subst he
        rw [hrest0] at hr1
        exact absurd hr1 (by simp)
      have hd1' : lookupKV dest k1 = some v1 := by
        rw [lookupKV_append] at hd1
        cases hdk : lookupKV dest k1 with
        | some x => rw [hdk] at hd1; simpa using hd1
        | none =>
          rw [hdk] at hd1
          simp only [lookupKV] at hd1
          rw [if_neg (fun he : k0 = k1 => hk1 he.symm)] at hd1
          exact absurd hd1 (by simp)
      refine ⟨k1, v1, w1, ?_, hd1', ?_, hne1⟩
      · rw [hstep]; exact herr
      · rw [hsrc_ne k1 hk1]; exact hr1

/-- C8: for every pair of attribute maps, the merge inserts each source key
absent from the destination, keeps the destination binding for a key present
in both with equal values, and fails with an `AttributeConflict` error naming
a conflicting key as soon as some key is present in both with different
values. -/
theorem c8_mergeAttrs (dest source : Attrs) (hnd : (source.map Prod.fst).Nodup) :
    ((∀ k v w, lookupKV dest k = some v → lookupKV source k = some w → v = w) →
      ∃ d, mergeAttrs dest source = Except.ok d ∧
        ∀ k, lookupKV d k =
          match lookupKV dest k with
          | some v => some v
          | none => lookupKV source k) ∧
    ((∃ k v w, lookupKV dest k = some v ∧ lookupKV source k = some w ∧ v ≠ w) →
      ∃ k v w, mergeAttrs dest source = Except.error (FErr.attributeConflict k) ∧
        lookupKV dest k = some v ∧ lookupKV source k = some w ∧ v ≠ w) :=
  ⟨fun hcompat => mergeAttrs_ok_of_compat source dest hnd hcompat,
   fun hconf => mergeAttrs_conflict source dest hnd hconf⟩

/-- C8, witness: the conflict direction of the theorem applied to two concrete
maps that disagree on the key `a`. -/
theorem c8_mergeAttrs_witness :
    mergeAttrs [("a", AttrV.str "x")] [("a", AttrV.str "y"), ("b", AttrV.int 2)] =
      Except.error (FErr.attributeConflict "a") := by
  obtain ⟨k, v, w, herr, h1, h2, hne⟩ :=
    (c8_mergeAttrs [("a", AttrV.str "x")] [("a", AttrV.str "y"), ("b", AttrV.int 2)]
      (by decide)).2
      ⟨"a", AttrV.str "x", AttrV.str "y", by decide, by decide, by decide⟩
  have hk : k = "a" := by
    by_cases hak : k = "a"
    · exact hak
    · rw [show lookupKV ([("a", AttrV.str "x")] : Attrs) k = none from by
        simp only [lookupKV]
        rw [if_neg (fun he : "a" = k => hak he.symm)]] at h1
      exact absurd h1 (by simp)
  rw [hk] at herr
  exact herr

/-! ## Resolver facts -/

theorem clonePhase_ran (cache : Cache) (probe : ProbeOutcome) (name url : String)
    (ch st : Option String) : (clonePhase cache probe name url ch st).2.1 = true := by
  unfold clonePhase
  repeat first | rfl | split | dsimp only

theorem reachedCloneImpure (cache : Cache) (probe : ProbeOutcome) (name url : String)
    (ch st : Option String) (c' : Cache) (r : Except FErr (StorePath × Attrs))
    (h : impurePhase cache probe name url ch st = (c', true, r)) :
    clonePhase cache probe name url ch st = (c', true, r) := by
  unfold impurePhase at h
  split at h
  · split at h
    · simp at h
    · exact h
    · split at h
      · simp at h
      · exact h
      · simp at h
  · exact h

theorem reachedClone (cache : Cache) (probe : ProbeOutcome) (name url : String)
    (ch st : Option String) (c' : Cache) (r : Except FErr (StorePath × Attrs))
    (h : doFetchCore cache probe name url ch st = (c', true, r)) :
    clonePhase cache probe name url ch st = (c', true, r) := by
  unfold doFetchCore at h
  cases ch with
  | none => exact reachedCloneImpure _ _ _ _ _ _ _ _ h
  | some c =>
    cases st with
    | none => exact reachedCloneImpure _ _ _ _ _ _ _ _ h
    | some s =>
      have h' : (match cacheLookup cache (lockedKeyOf name c s) with
          | some (info, sp) => (cache, false, Except.ok (sp, info))
          | none => impurePhase cache probe name url (some c) (some s)) = (c', true, r) := h
      split at h'
      · simp at h'
      · exact reachedCloneImpure _ _ _ _ _ _ _ _ h'

/-! ## Claim C6: a locked cache hit -/

/-- C6: for a locked request whose locked key `{name, channel, state}` is in
the cache, the resolver returns the cached content handle and metadata without
running the clone/probe step (the outcome is the same for every probe
behaviour, and the clone flag stays `false`), and the cache is unchanged. -/
theorem c6_lockedHit (cache : Cache) (probe : ProbeOutcome) (name url c s : String)
    (info : Attrs) (sp : StorePath)
    (h : cacheLookup cache (lockedKeyOf name c s) = some (info, sp)) :
    doFetchCore cache probe name url (some c) (some s) = (cache, false, Except.ok (sp, info)) := by
  show (match cacheLookup cache (lockedKeyOf name c s) with
    | some (info, sp) => (cache, false, Except.ok (sp, info))
    | none => impurePhase cache probe name url (some c) (some s)) =
      (cache, false, Except.ok (sp, info))
  rw [h]

/-- C6, witness: the theorem applied to a one-entry cache, with a probe left
failing — the locked hit never consults it. -/
theorem c6_lockedHit_witness :
    doFetchCore
      [{ key := lockedKeyOf "source" "main" "s1"
         infoAttrs := infoAttrsOf ⟨"main", "s1", 3⟩, storePath := "sp", isFinal := true }]
      ProbeOutcome.fails "source" "https://example.org/repo" (some "main") (some "s1") =
      ([{ key := lockedKeyOf "source" "main" "s1"
          infoAttrs := infoAttrsOf ⟨"main", "s1", 3⟩, storePath := "sp", isFinal := true }],
        false, Except.ok ("sp", infoAttrsOf ⟨"main", "s1", 3⟩)) :=
  c6_lockedHit _ ProbeOutcome.fails "source" "https://example.org/repo" "main" "s1"
    (infoAttrsOf ⟨"main", "s1", 3⟩) "sp" (by decide)

/-! ## Claim C5: mismatch failures are cache-neutral -/

/-- C5: when a resolution performs a fresh clone and the caller requested a
channel (resp. state) that differs from the probed one, the call fails with a
`ChannelMismatch` (resp. `StateMismatch`) error carrying both the requested
and the actual value, and the cache is exactly as before the call — no entry
is written. -/
theorem c5_mismatch (cache : Cache) (sp : StorePath) (rs : RepoStatus) (name url : String)
    (ch st : Option String) (c' : Cache) (r : Except FErr (StorePath × Attrs))
    (h : doFetchCore cache (ProbeOutcome.ok sp rs) name url ch st = (c', true, r)) :
    (∀ c, ch = some c → c ≠ rs.channel →
      r = Except.error (FErr.channelMismatch c rs.channel) ∧ c' = cache) ∧
    (∀ s, st = some s → s ≠ rs.state → (∀ c, ch = some c → c = rs.channel) →
      r = Except.error (FErr.stateMismatch s rs.state) ∧ c' = cache) := by
  have hc := reachedClone _ _ _ _ _ _ _ _ h
  have hfin : ∀ (e : FErr),
      doFetchClone (ProbeOutcome.ok sp rs) ch st = Except.error e →
      r = Except.error e ∧ c' = cache := by
    intro e hdc
    have hcp : clonePhase cache (ProbeOutcome.ok sp rs) name url ch st
        = (cache, true, Except.error e) := by
      unfold clonePhase
      rw [hdc]
    rw [hcp] at hc
    exact ⟨(congrArg (fun t => t.2.2) hc).symm, (congrArg Prod.fst hc).symm⟩
  constructor
  · rintro c rfl hne
    refine hfin _ ?_
    show (if c = rs.channel then
        (match st with
          | some s =>
            if s = rs.state then Except.ok (sp, rs)
            else Except.error (FErr.stateMismatch s rs.state)
          | none => Except.ok (sp, rs))
      else Except.error (FErr.channelMismatch c rs.channel)) =
      Except.error (FErr.channelMismatch c rs.channel)
    rw [if_neg hne]
  · rintro s rfl hne hok
    cases ch with
    | none =>
      refine hfin _ ?_
      show (if s = rs.state then Except.ok (sp, rs)
        else Except.error (FErr.stateMismatch s rs.state)) =
        Except.error (FErr.stateMismatch s rs.state)
      rw [if_neg hne]
    | some c =>
      refine hfin _ ?_
      show (if c = rs.channel then
          (if s = rs.state then Except.ok (sp, rs)
            else Except.error (FErr.stateMismatch s rs.state))
        else Except.error (FErr.channelMismatch c rs.channel)) =
        Except.error (FErr.stateMismatch s rs.state)
      rw [if_pos (hok c rfl), if_neg hne]

/-- C5, witness: the theorem applied to a concrete channel mismatch. -/
theorem c5_mismatch_witness :
    (doFetchCore [] (ProbeOutcome.ok "sp" ⟨"dev", "s2", 1⟩) "source" "u" (some "main") none).2.2
      = Except.error (FErr.channelMismatch "main" "dev") ∧
    (doFetchCore [] (ProbeOutcome.ok "sp" ⟨"dev", "s2", 1⟩) "source" "u" (some "main") none).1
      = [] :=
  (c5_mismatch [] "sp" ⟨"dev", "s2", 1⟩ "source" "u" (some "main") none
    (doFetchCore [] (ProbeOutcome.ok "sp" ⟨"dev", "s2", 1⟩) "source" "u" (some "main") none).1
    (doFetchCore [] (ProbeOutcome.ok "sp" ⟨"dev", "s2", 1⟩) "source" "u" (some "main") none).2.2
    (by decide)).1 "main" rfl (by decide)

/-! ## Claim C7: the impure-hit compatibility check -/

/-- C7: when the impure key `{name, url}` has a cache entry (and the locked
lookup did not already return), the resolver returns the cached entry exactly
when every explicitly requested attribute matches the cached one — an absent
`channel`/`state` matches anything, a present one must equal the cached value;
on a mismatch the entry is not returned and the resolver proceeds to a fresh
clone rather than raising an error. -/
theorem c7_impureHit (cache : Cache) (probe : ProbeOutcome) (name url : String)
    (ch st : Option String) (info : Attrs) (sp : StorePath) (cc cs : String)
    (hNoLocked : ∀ c s, ch = some c → st = some s →
      cacheLookup cache (lockedKeyOf name c s) = none)
    (hHit : cacheLookup cache (impureKeyOf name url) = some (info, sp))
    (hcc : getStrAttr info "channel" = Except.ok cc)
    (hcs : getStrAttr info "state" = Except.ok cs) :
    (((∀ c, ch = some c → c = cc) ∧ (∀ s, st = some s → s = cs)) →
      doFetchCore cache probe name url ch st = (cache, false, Except.ok (sp, info))) ∧
    (¬((∀ c, ch = some c → c = cc) ∧ (∀ s, st = some s → s = cs)) →
      doFetchCore cache probe name url ch st = clonePhase cache probe name url ch st ∧
      (clonePhase cache probe name url ch st).2.1 = true) := by
  have hred : doFetchCore cache probe name url ch st = impurePhase cache probe name url ch st := by
    cases ch with
    | none => rfl
    | some c =>
      cases st with
      | none => rfl
      | some s =>
        show (match cacheLookup cache (lockedKeyOf name c s) with
          | some (info, sp) => (cache, false, Except.ok (sp, info))
          | none => impurePhase cache probe name url (some c) (some s)) = _
        rw [hNoLocked c s rfl rfl]
  obtain ⟨b1, hb1, hchar1⟩ : ∃ b1, matchesCached ch info "channel" = Except.ok b1 ∧
      (b1 = true ↔ (∀ c, ch = some c → c = cc)) := by
    cases ch with
    | none =>
      refine ⟨true, rfl, ?_⟩
      simp
    | some c =>
      refine ⟨decide (c = cc), ?_, ?_⟩
      · show (getStrAttr info "channel").map (fun cached => decide (c = cached)) = _
        rw [hcc]
        rfl
      · constructor
        · intro hb c' he
          have hce : c = c' := by injection he
          subst hce
          exact of_decide_eq_true hb
        · intro hp
          exact decide_eq_true (hp c rfl)
  obtain ⟨b2, hb2, hchar2⟩ : ∃ b2, matchesCached st info "state" = Except.ok b2 ∧
      (b2 = true ↔ (∀ s, st = some s → s = cs)) := by
    cases st with
    | none =>
      refine ⟨true, rfl, ?_⟩
      simp
    | some s =>
      refine ⟨decide (s = cs), ?_, ?_⟩
      · show (getStrAttr info "state").map (fun cached => decide (s = cached)) = _
        rw [hcs]
        rfl
      · constructor
        · intro hb s' he
          have hse : s = s' := by injection he
          subst hse
          exact of_decide_eq_true hb
        · intro hp
          exact decide_eq_true (hp s rfl)
  have himp : impurePhase cache probe name url ch st =
      (if b1 then
        (if b2 then (cache, false, Except.ok (sp, info))
          else clonePhase cache probe name url ch st)
        else clonePhase cache probe name url ch st) := by
    show (match cacheLookup cache (impureKeyOf name url) with
      | some (info, sp) =>
        match matchesCached ch info "channel" with
        | Except.error e => (cache, false, Except.error e)
        | Except.ok false => clonePhase cache probe name url ch st
        | Except.ok true =>
          match matchesCached st info "state" with
          | Except.error e => (cache, false, Except.error e)
          | Except.ok false => clonePhase cache probe name url ch st
          | Except.ok true => (cache, false, Except.ok (sp, info))
      | none => clonePhase cache probe name url ch st) = _
    rw [hHit]
    dsimp only
    rw [hb1]
    cases b1 with
    | false => rfl
    | true =>
      dsimp only
      rw [hb2]
      cases b2 <;> rfl
  constructor
  · rintro ⟨h1, h2⟩
    rw [hred, himp, if_pos (hchar1.mpr h1), if_pos (hchar2.mpr h2)]
  · intro hn
    by_cases hA : b1 = true
    · by_cases hB : b2 = true
      · exact absurd ⟨hchar1.mp hA, hchar2.mp hB⟩ hn
      · have hB' : b2 = false := by
          cases b2
          · rfl
          · exact absurd rfl hB
        refine ⟨?_, clonePhase_ran _ _ _ _ _ _⟩
        rw [hred, himp, if_pos hA, hB']
        rfl
    · have hA' : b1 = false := by
        cases b1
        · rfl
        · exact absurd rfl hA
      refine ⟨?_, clonePhase_ran _ _ _ _ _ _⟩
      rw [hred, himp, hA']
      rfl

/-- C7, witness: the compatible direction of the theorem at a concrete cache
whose impure entry matches the requested state. -/
theorem c7_impureHit_witness :
    doFetchCore
      [{ key := impureKeyOf "source" "u", infoAttrs := infoAttrsOf ⟨"main", "s1", 9⟩
         storePath := "sp", isFinal := false }]
      ProbeOutcome.fails "source" "u" none (some "s1") =
      ([{ key := impureKeyOf "source" "u", infoAttrs := infoAttrsOf ⟨"main", "s1", 9⟩
          storePath := "sp", isFinal := false }],
        false, Except.ok ("sp", infoAttrsOf ⟨"main", "s1", 9⟩)) :=
  (c7_impureHit _ ProbeOutcome.fails "source" "u" none (some "s1")
    (infoAttrsOf ⟨"main", "s1", 9⟩) "sp" "main" "s1"
    (fun c s hc _ => Option.noConfusion hc) (by decide) (by decide) (by decide)).1
    (And.intro (fun c hc => Option.noConfusion hc)
      (fun s hs => (Option.some.inj hs).symm))

/-! ## Claim C1: the impure-key persist step -/

theorem mergeAttrs_length_le (source : Attrs) :
    ∀ dest d : Attrs, mergeAttrs dest source = Except.ok d → dest.length ≤ d.length := by
  induction source with
  | nil =>
    intro dest d h
    have : dest = d := by simpa [mergeAttrs] using h
    rw [this]
  | cons p rest ih =>
    intro dest d h
    obtain ⟨k0, v0⟩ := p
    unfold mergeAttrs at h
    split at h
    · rename_i d1 heq
      have hle : dest.length ≤ d1.length := by
        unfold mergeOne at heq
        split at heq
        · split at heq
          · have : dest = d1 := by simpa using heq
            rw [this]
          · exact absurd heq (by simp)
        · have : dest ++ [(k0, v0)] = d1 := by simpa using heq
          rw [← this]
          simp
      exact hle.trans (ih d1 d h)
    · exact absurd h (by simp)

theorem attrsEqvB_false_of_length_ne (a b : Attrs) (h : a.length ≠ b.length) :
    attrsEqvB a b = false := by
  unfold attrsEqvB
  have hb : (a.length == b.length) = false := beq_eq_false_iff_ne.mpr h
  rw [hb, Bool.false_and]

theorem attrsEqvB_impure_self (name url : String) :
    attrsEqvB (impureKeyOf name url) (impureKeyOf name url) = true := by
  simp [attrsEqvB, impureKeyOf, lookupKV]

theorem mergeAttrs_unlockedKey (name ch st : String) :
    mergeAttrs (unlockedKeyOf name) [("channel", AttrV.str ch), ("state", AttrV.str st)] =
      Except.ok [("name", AttrV.str name), ("type", AttrV.str "pijul"),
        ("channel", AttrV.str ch), ("state", AttrV.str st)] := by
  simp [mergeAttrs, mergeOne, unlockedKeyOf, lookupKV]

theorem clonePhase_unlockedForm (cache : Cache) (probe : ProbeOutcome) (name url : String)
    (ch st : Option String) (c' : Cache) (sp : StorePath) (info : Attrs)
    (h1 : (match doFetchClone probe ch st with
      | Except.error e => (cache, true, Except.error e)
      | Except.ok (sp1, rs) =>
        match mergeAttrs (unlockedKeyOf name)
            [("channel", AttrV.str rs.channel), ("state", AttrV.str rs.state)] with
        | Except.error e => (cache, true, Except.error e)
        | Except.ok key =>
          (cacheAdd (cacheAdd cache (impureKeyOf name url) (infoAttrsOf rs) sp1 false)
            key (infoAttrsOf rs) sp1 true, true, Except.ok (sp1, infoAttrsOf rs)))
      = (c', true, Except.ok (sp, info))) :
    cacheFind c' (impureKeyOf name url) =
      some { key := impureKeyOf name url, infoAttrs := info
             storePath := sp, isFinal := false } := by
  split at h1
  · simp at h1
  · rename_i sp1 rs heq0
    rw [mergeAttrs_unlockedKey name rs.channel rs.state] at h1
    dsimp only at h1
    have hcache : cacheAdd (cacheAdd cache (impureKeyOf name url) (infoAttrsOf rs) sp1 false)
        [("name", AttrV.str name), ("type", AttrV.str "pijul"),
          ("channel", AttrV.str rs.channel), ("state", AttrV.str rs.state)]
        (infoAttrsOf rs) sp1 true = c' := congrArg Prod.fst h1
    have hres : (Except.ok (sp1, infoAttrsOf rs) : Except FErr (StorePath × Attrs))
        = Except.ok (sp, info) := congrArg (fun t => t.2.2) h1
    have hres' : sp1 = sp ∧ infoAttrsOf rs = info := by simpa using hres
    rw [← hcache, ← hres'.1, ← hres'.2]
    have hfk : attrsEqvB
        [("name", AttrV.str name), ("type", AttrV.str "pijul"),
          ("channel", AttrV.str rs.channel), ("state", AttrV.str rs.state)]
        (impureKeyOf name url) = false :=
      attrsEqvB_false_of_length_ne _ _ (by simp [impureKeyOf])
    have htk : attrsEqvB (impureKeyOf name url) (impureKeyOf name url) = true :=
      attrsEqvB_impure_self name url
    simp [cacheFind, cacheAdd, List.find?, hfk, htk]

theorem clonePhase_lockedForm (cache : Cache) (probe : ProbeOutcome) (name url c s : String)
    (c' : Cache) (sp : StorePath) (info : Attrs)
    (h1 : (match doFetchClone probe (some c) (some s) with
      | Except.error e => (cache, true, Except.error e)
      | Except.ok (sp1, rs) =>
        match mergeAttrs (lockedKeyOf name c s)
            [("channel", AttrV.str rs.channel), ("state", AttrV.str rs.state)] with
        | Except.error e => (cache, true, Except.error e)
        | Except.ok key =>
          (cacheAdd cache key (infoAttrsOf rs) sp1 true, true, Except.ok (sp1, infoAttrsOf rs)))
      = (c', true, Except.ok (sp, info))) :
    cacheFind c' (impureKeyOf name url) = cacheFind cache (impureKeyOf name url) := by
  split at h1
  · simp at h1
  · rename_i sp1 rs heq0
    split at h1
    · simp at h1
    · rename_i key heq
      have hlen : (lockedKeyOf name c s).length ≤ key.length := mergeAttrs_length_le _ _ _ heq
      have hfk : attrsEqvB key (impureKeyOf name url) = false := by
        refine attrsEqvB_false_of_length_ne _ _ ?_
        have h4 : (lockedKeyOf name c s).length = 4 := by simp [lockedKeyOf]
        have h3 : (impureKeyOf name url).length = 3 := by simp [impureKeyOf]
        rw [h4] at hlen
        rw [h3]
        omega
      have hcache : cacheAdd cache key (infoAttrsOf rs) sp1 true = c' :=
        congrArg Prod.fst h1
      rw [← hcache]
      simp [cacheFind, cacheAdd, List.find?, hfk]

/-- C1, counterexample: for a locked request (both channel and state supplied)
that performs a fresh clone with passing validation, the resolver does not
write the impure key at all — refuting the claim's "regardless of whether the
request was locked". -/
theorem c1_counterexample :
    (doFetchCore [] (ProbeOutcome.ok "sp" ⟨"main", "s1", 7⟩) "source" "https://example.org/repo"
      (some "main") (some "s1")).2.1 = true ∧
    ((doFetchCore [] (ProbeOutcome.ok "sp" ⟨"main", "s1", 7⟩) "source" "https://example.org/repo"
      (some "main") (some "s1")).2.2).toOption.isSome = true ∧
    cacheFind (doFetchCore [] (ProbeOutcome.ok "sp" ⟨"main", "s1", 7⟩) "source"
      "https://example.org/repo" (some "main") (some "s1")).1
      (impureKeyOf "source" "https://example.org/repo") = none := by
  decide

/-- C1, amended: for every resolution that reaches the Persist step (a fresh
clone was performed and validation passed), the resolver writes the impure key
`{name, url}` with the freshly probed metadata, marked non-final, exactly when
the request was unlocked; a locked request (both channel and state supplied)
leaves the impure key untouched and writes only the locked key. -/
theorem c1_persist (cache : Cache) (probe : ProbeOutcome) (name url : String)
    (ch st : Option String) (c' : Cache) (sp : StorePath) (info : Attrs)
    (h : doFetchCore cache probe name url ch st = (c', true, Except.ok (sp, info))) :
    ((ch = none ∨ st = none) →
      cacheFind c' (impureKeyOf name url) =
        some { key := impureKeyOf name url, infoAttrs := info
               storePath := sp, isFinal := false }) ∧
    ((∃ c s, ch = some c ∧ st = some s) →
      cacheFind c' (impureKeyOf name url) = cacheFind cache (impureKeyOf name url)) := by
  have hc := reachedClone _ _ _ _ _ _ _ _ h
  constructor
  · intro hUn
    cases ch with
    | none => exact clonePhase_unlockedForm cache probe name url none st c' sp info hc
    | some c =>
      have hst : st = none := by
        rcases hUn with h' | h'
        · exact absurd h' (by simp)
        · exact h'
      subst hst
      exact clonePhase_unlockedForm cache probe name url (some c) none c' sp info hc
  · rintro ⟨c, s, rfl, rfl⟩
    exact clonePhase_lockedForm cache probe name url c s c' sp info hc

/-- C1, witness: the amended theorem applied to a concrete unlocked
resolution. -/
theorem c1_persist_witness :
    cacheFind (doFetchCore [] (ProbeOutcome.ok "sp" ⟨"main", "s1", 7⟩) "source" "u" none none).1
        (impureKeyOf "source" "u") =
      some { key := impureKeyOf "source" "u", infoAttrs := infoAttrsOf ⟨"main", "s1", 7⟩
             storePath := "sp", isFinal := false } :=
  (c1_persist [] (ProbeOutcome.ok "sp" ⟨"main", "s1", 7⟩) "source" "u" none none
    (doFetchCore [] (ProbeOutcome.ok "sp" ⟨"main", "s1", 7⟩) "source" "u" none none).1
    "sp" (infoAttrsOf ⟨"main", "s1", 7⟩) (by decide)).1 (Or.inl rfl)

/-! ## Claim C4: the URL round trip -/

theorem lookupKV_append1 {β : Type} (q : List (String × β)) (k1 k : String) (v1 : β) :
    lookupKV (q ++ [(k1, v1)]) k =
      match lookupKV q k with
      | some v => some v
      | none => if k1 = k then some v1 else none := by
  rw [lookupKV_append]
  cases lookupKV q k with
  | some v => rfl
  | none => rfl

theorem lookupKV_filter_other (l : List (String × String)) (k : String)
    (h1 : k ≠ "channel") (h2 : k ≠ "state") :
    lookupKV (l.filter (fun p => !(decide (p.1 = "channel" ∨ p.1 = "state")))) k =
      lookupKV l k := by
  induction l with
  | nil => rfl
  | cons p rest ih =>
    rw [List.filter_cons]
    by_cases hres : p.1 = "channel" ∨ p.1 = "state"
    · rw [if_neg (by simp [hres])]
      rw [ih]
      have hpk : ¬(p.1 = k) := by
        rcases hres with h | h <;> rw [h]
        · exact fun he => h1 he.symm
        · exact fun he => h2 he.symm
      show lookupKV rest k = lookupKV (p :: rest) k
      simp only [lookupKV]
      rw [if_neg hpk]
    · rw [if_pos (by simp [hres])]
      show lookupKV (p :: _) k = lookupKV (p :: rest) k
      simp only [lookupKV]
      by_cases hpk : p.1 = k
      · rw [if_pos hpk, if_pos hpk]
      · rw [if_neg hpk, if_neg hpk, ih]

theorem lookupKV_filter_reserved (l : List (String × String)) (k : String)
    (hk : k = "channel" ∨ k = "state") :
    lookupKV (l.filter (fun p => !(decide (p.1 = "channel" ∨ p.1 = "state")))) k = none := by
  apply lookupKV_eq_none_of_forall
  intro p hp hpk
  have hm := List.mem_filter.mp hp
  have hres : ¬(p.1 = "channel" ∨ p.1 = "state") := by simpa using hm.2
  refine hres ?_
  rw [hpk]
  exact hk

/-- C4: for every URL accepted by `inputFromURL` (with the query a map, i.e.
no duplicate keys), `toURL` of the resulting input returns a URL equal to the
original up to query-parameter ordering: the same scheme (the stripped
`pijul+` prefix is re-added), the same authority and path, and a query that
binds exactly the same keys to the same values — the lifted `channel`/`state`
are re-injected and all other parameters are preserved in the stored url. -/
theorem c4_roundTrip (u : ParsedURL) (rt : Bool) (inp : Input)
    (hnd : (u.query.map Prod.fst).Nodup)
    (h : inputFromURL u rt = Except.ok (some inp)) :
    ∃ u2, toURL inp = Except.ok u2 ∧ u2.scheme = u.scheme ∧
      u2.authority = u.authority ∧ u2.path = u.path ∧
      ∀ k, lookupKV u2.query k = lookupKV u.query k := by
  have hsch : u.scheme = "pijul+http" ∨ u.scheme = "pijul+https" ∨ u.scheme = "pijul+ssh" := by
    by_contra hn
    unfold inputFromURL at h
    rw [if_pos (by tauto)] at h
    simp at h
  have heq : inputFromURL u rt = inputFromAttrs (fromURLAttrs u) := by
    unfold inputFromURL
    rw [if_neg (by tauto)]
  rw [heq, inputFromAttrs_fromURLAttrs] at h
  have hinp : inp =
      { attrs := fromURLAttrs u,
        locked := (lookupKV u.query "channel").isSome && (lookupKV u.query "state").isSome } := by
    have h' := h.symm
    simpa using h'
  subst hinp
  have hshape := liftQuery_snd_shape u.query
    ([("type", AttrV.str "pijul")], { u with scheme := dropChars u.scheme 6, query := [] })
  have hWs : (fromURLFold u).2.scheme = dropChars u.scheme 6 := hshape.1
  have hWa : (fromURLFold u).2.authority = u.authority := hshape.2.1
  have hWp : (fromURLFold u).2.path = u.path := hshape.2.2
  have hWq : (fromURLFold u).2.query =
      u.query.filter (fun p => !(decide (p.1 = "channel" ∨ p.1 = "state"))) := by
    have hq := liftQuery_snd_query u.query
      ([("type", AttrV.str "pijul")], { u with scheme := dropChars u.scheme 6, query := [] })
      hnd (fun p _ => rfl)
    simpa using hq
  have hurl : getUrlAttr (fromURLAttrs u) "url" = Except.ok (fromURLFold u).2 := by
    unfold getUrlAttr
    rw [fromURLAttrs_lookup_url]
  have hnp : ¬((fromURLFold u).2.scheme = "pijul") := by
    rw [hWs]
    rcases hsch with h' | h' | h' <;> rw [h'] <;> decide
  have hadd : "pijul+" ++ (fromURLFold u).2.scheme = u.scheme := by
    rw [hWs]
    rcases hsch with h' | h' | h' <;> rw [h'] <;> decide
  have hWfc : lookupKV (fromURLFold u).2.query "channel" = none := by
    rw [hWq]
    exact lookupKV_filter_reserved _ _ (Or.inl rfl)
  have hWfs : lookupKV (fromURLFold u).2.query "state" = none := by
    rw [hWq]
    exact lookupKV_filter_reserved _ _ (Or.inr rfl)
  have hother : ∀ k, k ≠ "channel" → k ≠ "state" →
      lookupKV (fromURLFold u).2.query k = lookupKV u.query k := by
    intro k h1 h2
    rw [hWq]
    exact lookupKV_filter_other _ _ h1 h2
  cases hc : lookupKV u.query "channel" with
  | some c =>
    cases hs : lookupKV u.query "state" with
    | some s =>
      have hins1 : insertOrAssignQ (fromURLFold u).2.query "channel" c =
          (fromURLFold u).2.query ++ [("channel", c)] :=
        insertOrAssignQ_of_absent _ _ _ hWfc
      have hWs2 : lookupKV ((fromURLFold u).2.query ++ [("channel", c)]) "state" = none := by
        rw [lookupKV_append1, hWfs]
        rfl
      have hins2 : insertOrAssignQ ((fromURLFold u).2.query ++ [("channel", c)]) "state" s =
          ((fromURLFold u).2.query ++ [("channel", c)]) ++ [("state", s)] :=
        insertOrAssignQ_of_absent _ _ _ hWs2
      refine ⟨{ scheme := "pijul+" ++ (fromURLFold u).2.scheme
                authority := (fromURLFold u).2.authority
                path := (fromURLFold u).2.path
                query := insertOrAssignQ (insertOrAssignQ
                  (fromURLFold u).2.query "channel" c) "state" s },
        ?_, hadd, hWa, hWp, ?_⟩
      · unfold toURL
        rw [hurl]
        dsimp only
        rw [fromURLAttrs_reserved u "channel" (Or.inl rfl), hc,
          fromURLAttrs_reserved u "state" (Or.inr rfl), hs]
        dsimp only
        rw [if_pos hnp]
      · intro k
        show lookupKV (insertOrAssignQ (insertOrAssignQ
          (fromURLFold u).2.query "channel" c) "state" s) k = _
        rw [hins1, hins2, lookupKV_append1, lookupKV_append1]
        by_cases hk1 : k = "channel"
        · subst hk1
          rw [hWfc, hc]
          rfl
        · by_cases hk2 : k = "state"
          · subst hk2
            rw [hWfs, hs]
            rfl
          · rw [hother k hk1 hk2]
            cases hq : lookupKV u.query k with
            | some v => rfl
            | none =>
              rw [if_neg (fun he : "channel" = k => hk1 he.symm),
                if_neg (fun he : "state" = k => hk2 he.symm)]
    | none =>
      have hins1 : insertOrAssignQ (fromURLFold u).2.query "channel" c =
          (fromURLFold u).2.query ++ [("channel", c)] :=
        insertOrAssignQ_of_absent _ _ _ hWfc
      refine ⟨{ scheme := "pijul+" ++ (fromURLFold u).2.scheme
                authority := (fromURLFold u).2.authority
                path := (fromURLFold u).2.path
                query := insertOrAssignQ (fromURLFold u).2.query "channel" c },
        ?_, hadd, hWa, hWp, ?_⟩
      · unfold toURL
        rw [hurl]
        dsimp only
        rw [fromURLAttrs_reserved u "channel" (Or.inl rfl), hc,
          fromURLAttrs_reserved u "state" (Or.inr rfl), hs]
        dsimp only
        rw [if_pos hnp]
      · intro k
        show lookupKV (insertOrAssignQ (fromURLFold u).2.query "channel" c) k = _
        rw [hins1, lookupKV_append1]
        by_cases hk1 : k = "channel"
        · subst hk1
          rw [hWfc, hc]
          rfl
        · by_cases hk2 : k = "state"
          · subst hk2
            rw [hWfs, hs]
            show (if "channel" = "state" then some c else none) = none
            rfl
          · rw [hother k hk1 hk2]
            cases hq : lookupKV u.query k with
            | some v => rfl
            | none =>
              show (if "channel" = k then some c else none) = none
              rw [if_neg (fun he : "channel" = k => hk1 he.symm)]
  | none =>
    cases hs : lookupKV u.query "state" with
    | some s =>
      have hins2 : insertOrAssignQ (fromURLFold u).2.query "state" s =
          (fromURLFold u).2.query ++ [("state", s)] :=
        insertOrAssignQ_of_absent _ _ _ hWfs
      refine ⟨{ scheme := "pijul+" ++ (fromURLFold u).2.scheme
                authority := (fromURLFold u).2.authority
                path := (fromURLFold u).2.path
                query := insertOrAssignQ (fromURLFold u).2.query "state" s },
        ?_, hadd, hWa, hWp, ?_⟩
      · unfold toURL
        rw [hurl]
        dsimp only
        rw [fromURLAttrs_reserved u "channel" (Or.inl rfl), hc,
          fromURLAttrs_reserved u "state" (Or.inr rfl), hs]
        dsimp only
        rw [if_pos hnp]
      · intro k
        show lookupKV (insertOrAssignQ (fromURLFold u).2.query "state" s) k = _
        rw [hins2, lookupKV_append1]
        by_cases hk2 : k = "state"
        · subst hk2
          rw [hWfs, hs]
          rfl
        · by_cases hk1 : k = "channel"
          · subst hk1
            rw [hWfc, hc]
            show (if "state" = "channel" then some s else none) = none
            rfl
          · rw [hother k hk1 hk2]
            cases hq : lookupKV u.query k with
            | some v => rfl
            | none =>
              show (if "state" = k then some s else none) = none
              rw [if_neg (fun he : "state" = k => hk2 he.symm)]
    | none =>
      refine ⟨{ scheme := "pijul+" ++ (fromURLFold u).2.scheme
                authority := (fromURLFold u).2.authority
                path := (fromURLFold u).2.path
                query := (fromURLFold u).2.query },
        ?_, hadd, hWa, hWp, ?_⟩
      · unfold toURL
        rw [hurl]
        dsimp only
        rw [fromURLAttrs_reserved u "channel" (Or.inl rfl), hc,
          fromURLAttrs_reserved u "state" (Or.inr rfl), hs]
        dsimp only
        rw [if_pos hnp]
      · intro k
        show lookupKV (fromURLFold u).2.query k = _
        by_cases hk1 : k = "channel"
        · subst hk1
          rw [hWfc, hc]
        · by_cases hk2 : k = "state"
          · subst hk2
            rw [hWfs, hs]
          · exact hother k hk1 hk2

/-- C4, witness: the theorem applied to a concrete accepted URL; the
round-tripped URL regains the original scheme. -/
theorem c4_roundTrip_witness :
    ((toURL { attrs := fromURLAttrs ⟨"pijul+https", some "example.org", "/repo",
                [("channel", "main"), ("state", "S1"), ("x", "1")]⟩,
              locked := true }).toOption.map ParsedURL.scheme) = some "pijul+https" := by
  obtain ⟨u2, h1, h2, _, _, _⟩ := c4_roundTrip
    ⟨"pijul+https", some "example.org", "/repo",
      [("channel", "main"), ("state", "S1"), ("x", "1")]⟩
    false
    { attrs := fromURLAttrs ⟨"pijul+https", some "example.org", "/repo",
                  [("channel", "main"), ("state", "S1"), ("x", "1")]⟩,
      locked := true }
    (by decide) (by decide)
  rw [h1]
  show some u2.scheme = some "pijul+https"
  rw [h2]

end PijulFetch
